import Mathlib

/-!
# go-argmapper: converter construction (`conversion.go`)

A shallow embedding of `NewConv` and of the parts of Go's `reflect` and `fmt`
packages it calls.  Go functions that may panic return a `GoResult`; a Go
`error` is modelled by its message, a nil pointer or nil error by `none`.

The resolution engine (Planner, Executor, Orchestrator) is not in
`conversion.go`; its definitions follow the specification and say so.
-/

namespace Argmapper

/-! ## Go runtime: results of calls that may panic -/

/-- Outcome of running a Go call: it returns a value, or it panics. -/
inductive GoResult (α : Type) where
  | ret (v : α)
  | panics (msg : String)
  deriving Repr, DecidableEq

/-- Sequencing of Go calls: a panic in the first call aborts the rest. -/
def GoResult.bind {α β : Type} (r : GoResult α) (k : α → GoResult β) : GoResult β :=
  match r with
  | .ret v => k v
  | .panics m => .panics m

/-! ## Package `reflect` -/

/-- The kinds of `reflect.Kind`, in declaration order. -/
inductive Kind where
  | Invalid | Bool | Int | Int8 | Int16 | Int32 | Int64
  | Uint | Uint8 | Uint16 | Uint32 | Uint64 | Uintptr
  | Float32 | Float64 | Complex64 | Complex128
  | Array | Chan | Func | Interface | Map | Ptr | Slice
  | String | Struct | UnsafePointer
  deriving Repr, DecidableEq

/-- The method `reflect.Kind.String`: the name of each kind, which is what `%s`
prints for a `Kind`. -/
def KindString : Kind → String
  | .Invalid => "invalid"
  | .Bool => "bool"
  | .Int => "int"
  | .Int8 => "int8"
  | .Int16 => "int16"
  | .Int32 => "int32"
  | .Int64 => "int64"
  | .Uint => "uint"
  | .Uint8 => "uint8"
  | .Uint16 => "uint16"
  | .Uint32 => "uint32"
  | .Uint64 => "uint64"
  | .Uintptr => "uintptr"
  | .Float32 => "float32"
  | .Float64 => "float64"
  | .Complex64 => "complex64"
  | .Complex128 => "complex128"
  | .Array => "array"
  | .Chan => "chan"
  | .Func => "func"
  | .Interface => "interface"
  | .Map => "map"
  | .Ptr => "ptr"
  | .Slice => "slice"
  | .String => "string"
  | .Struct => "struct"
  | .UnsafePointer => "unsafe.Pointer"

/-- Go types as `reflect.Type` presents them.  `errorType` is the predeclared
interface type `error`; `iface` is any other interface type. -/
inductive GoType where
  | bool | int | int8 | int16 | int32 | int64
  | uint | uint8 | uint16 | uint32 | uint64 | uintptr
  | float32 | float64 | complex64 | complex128
  | string | unsafePointer
  | array (len : Nat) (elem : GoType)
  | chan (elem : GoType)
  | func (ins : List GoType) (outs : List GoType)
  | errorType
  | iface (methods : List String)
  | map (key : GoType) (elem : GoType)
  | ptr (elem : GoType)
  | slice (elem : GoType)
  | struct (fields : List (String × GoType))
  deriving Repr

/-- Kind of a type: `reflect.Type.Kind`. -/
def GoType.Kind : GoType → Kind
  | .bool => .Bool
  | .int => .Int
  | .int8 => .Int8
  | .int16 => .Int16
  | .int32 => .Int32
  | .int64 => .Int64
  | .uint => .Uint
  | .uint8 => .Uint8
  | .uint16 => .Uint16
  | .uint32 => .Uint32
  | .uint64 => .Uint64
  | .uintptr => .Uintptr
  | .float32 => .Float32
  | .float64 => .Float64
  | .complex64 => .Complex64
  | .complex128 => .Complex128
  | .string => .String
  | .unsafePointer => .UnsafePointer
  | .array _ _ => .Array
  | .chan _ => .Chan
  | .func _ _ => .Func
  | .errorType => .Interface
  | .iface _ => .Interface
  | .map _ _ => .Map
  | .ptr _ => .Ptr
  | .slice _ => .Slice
  | .struct _ => .Struct

/-- Number of parameters: `reflect.Type.NumIn`, which panics off a function type.
The panic message given here stops before the name of the type, which `reflect`
appends to it; `NewConv` returns at its kind check before it can get there. -/
def GoType.NumIn : GoType → GoResult Nat
  | .func ins _ => .ret ins.length
  | _ => .panics "reflect: NumIn of non-func type"

/-- The i-th parameter type: `reflect.Type.In`, which panics off a function type
and, indexing the slice of parameter types, when the index is out of range.
The panic message for a type that is not a function stops before the name of
the type, which `reflect` appends to it; the message for an index out of range
is the one of the Go runtime. -/
def GoType.In : GoType → Nat → GoResult GoType
  | .func ins _, i =>
    match ins.get? i with
    | some t => .ret t
    | none =>
      .panics ("runtime error: index out of range [" ++ toString i ++ "] with length "
        ++ toString ins.length)
  | _, _ => .panics "reflect: In of non-func type"

/-- Number of results: `reflect.Type.NumOut`, which panics off a function type.
The panic message given here stops before the name of the type, which `reflect`
appends to it; `NewConv` returns at its kind check before it can get there. -/
def GoType.NumOut : GoType → GoResult Nat
  | .func _ outs => .ret outs.length
  | _ => .panics "reflect: NumOut of non-func type"

/-- A `reflect.Value` as far as `NewConv` looks at it: the zero Value (`none`),
or a value carrying its dynamic type. -/
structure Value where
  typ : Option GoType
  deriving Repr

/-- The function `reflect.ValueOf`: the argument is an `interface{}`, `none`
being the untyped nil interface, `some t` a value of dynamic type `t` (in Go a
dynamic type is never an interface type; the functions below do not depend on
that).  `ValueOf(nil)` is the zero Value. -/
def ValueOf (f : Option GoType) : Value :=
  ⟨f⟩

/-- The method `reflect.Value.Type`, which panics on the zero Value. -/
def Value.Type (v : Value) : GoResult GoType :=
  match v.typ with
  | some t => .ret t
  | none => .panics "reflect: call of reflect.Value.Type on zero Value"

/-! ## Package `fmt` -/

/-- A non-nil Go `error`, identified by the message its `Error` method returns. -/
structure GoError where
  msg : String
  deriving Repr, DecidableEq

/-- The function `fmt.Errorf` applied to an already formatted message. -/
def Errorf (msg : String) : GoError :=
  ⟨msg⟩

/-! ## `conversion.go` -/

/-- The struct `Conv`: maps from names to the types of inputs and outputs. -/
structure Conv where
  inputs : List (String × GoType)
  outputs : List (String × GoType)
  deriving Repr

/-- The function `NewConv` of `conversion.go`, statement by statement.  The
result pair is `(*Conv, error)`, `none` standing for `nil`. -/
def NewConv (f : Option GoType) : GoResult (Option Conv × Option GoError) :=
  let fv := ValueOf f
  fv.Type.bind fun ft =>
  let k := ft.Kind
  if k ≠ Kind.Func then
    .ret (none, some (Errorf ("fn should be a function, got " ++ KindString k)))
  else
  ft.NumIn.bind fun numIn =>
  if numIn > 1 then
    .ret (none, some (Errorf "function must take one struct arg"))
  else
  (ft.In 0).bind fun typ =>
  if typ.Kind ≠ Kind.Struct then
    .ret (none, some (Errorf "function must take one struct arg"))
  else
  ft.NumOut.bind fun numOut =>
  if numOut = 0 ∨ numOut > 2 then
    .ret (none, some (Errorf "function must return one or two results"))
  else
    .ret (none, none)

/-! ## Resolution: Executor and Orchestrator

`conversion.go` holds only the construction of a converter; the code that runs
chains of converters is not part of it.  The definitions of this section follow
sections 3, 4.2 and 4.3 of the specification. -/

/-- Modelled from the spec: the Argument Key of section 3, a name together with
a type descriptor; two keys are the same only if both agree. -/
structure ArgKey where
  name : String
  type : String
  deriving Repr, DecidableEq

/-- Modelled from the spec: the values an Environment holds (the specification
leaves them abstract; strings and integers are what its scenarios use). -/
inductive Val where
  | str (s : String)
  | int (n : Int)
  deriving Repr, DecidableEq

/-- Modelled from the spec: the Environment of section 3, a mapping from
Argument Key to value, kept as an association list. -/
abbrev Environment := List (ArgKey × Val)

/-- Modelled from the spec: the value an Environment holds for a key. -/
def Environment.get (env : Environment) (k : ArgKey) : Option Val :=
  (env.find? fun kv => kv.1 = k).map Prod.snd

/-- Modelled from the spec: the subset of an Environment on a set of keys. -/
def Environment.restrict (env : Environment) (keys : List ArgKey) : Environment :=
  env.filter fun kv => kv.1 ∈ keys

/-- Modelled from the spec: the working Environment after a Converter's outputs
are added to it; a key is held once, the new value replacing an old one. -/
def Environment.merge (env upd : Environment) : Environment :=
  upd ++ env.filter fun kv => kv.1 ∉ upd.map Prod.fst

/-- Modelled from the spec: what invoking a Converter gives (sections 3 and
4.2): an Environment for its outputs, an explicitly absent output (the nil
pointer of `conversion.go`), or an explicit error value. -/
inductive Invocation where
  | produced (out : Environment)
  | absent
  | error (err : String)
  deriving Repr, DecidableEq

/-- Modelled from the spec: the Converter of section 3, its inputs, outputs and
fallibility together with its invocation capability. -/
structure Converter where
  inputs : List ArgKey
  outputs : List ArgKey
  fallible : Bool
  invoke : Environment → Invocation

/-- Modelled from the spec: the Target of section 3. -/
structure Target where
  required : List ArgKey
  deriving Repr, DecidableEq

/-- Modelled from the spec: the Chain of section 3, an ordered sequence of
Converters. -/
abbrev Chain := List Converter

/-- Modelled from the spec: the outcome of an attempt (section 3). -/
inductive Outcome where
  | Success
  | ConversionFailed
  | ConversionError (err : String)
  | MissingInput
  deriving Repr, DecidableEq

/-- Modelled from the spec: one entry of the attempt trail (section 3). -/
structure Attempt where
  chain : Chain
  outcome : Outcome

/-- Modelled from the spec: the Result of section 3, the final Environment if
there is one, and the trail of every attempted chain. -/
structure Result where
  value : Option Environment
  attempts : List Attempt

/-- Modelled from the spec: the Executor of section 4.2.  It runs the
Converters of a chain in order on the working Environment; an absent output
stops the chain with ConversionFailed, an error value with ConversionError. -/
def execChain : Chain → Environment → Except Outcome Environment
  | [], env => .ok env
  | c :: rest, env =>
    match c.invoke (env.restrict c.inputs) with
    | .produced out => execChain rest (env.merge (out.restrict c.outputs))
    | .absent => .error .ConversionFailed
    | .error err => .error (.ConversionError err)

/-- Modelled from the spec: the outcome recorded for a run of the Executor. -/
def outcomeOf : Except Outcome Environment → Outcome
  | .ok _ => .Success
  | .error o => o

/-- Modelled from the spec: the loop of the Orchestrator of section 4.3 over
the candidate chains, in their order.  The first Success stops it, with the
requested subset of the final Environment as value; a failed chain is recorded
and the next candidate is attempted; with no candidate left there is no value
(Exhausted). -/
def attemptChains (target : Target) (base : Environment) : List Chain → Result
  | [] => ⟨none, []⟩
  | ch :: rest =>
    match execChain ch base with
    | .ok env => ⟨some (env.restrict target.required), [⟨ch, .Success⟩]⟩
    | .error o =>
      let r := attemptChains target base rest
      ⟨r.value, ⟨ch, o⟩ :: r.attempts⟩

/-- Modelled from the spec: `Resolve` of section 4.3.  The Resolution Planner
of section 4.1 is a parameter: it gives the ordered candidate chains for a
Target and a base Environment.  With no feasible chain the Result has no value
and a planning-level MissingInput attempt, no Converter being invoked. -/
def Resolve (planner : Target → Environment → List Chain) (target : Target)
    (base : Environment) : Result :=
  match planner target base with
  | [] => ⟨none, [⟨[], .MissingInput⟩]⟩
  | ch :: rest => attemptChains target base (ch :: rest)

/-! ### The scenario of two Converters producing the port

Section 8 of the specification: two Converters both produce the key `Port`,
one from `ConfigFile`, which fails with an error, and one from `EnvVar`, which
succeeds. -/

/-- Modelled from the spec: the key `Port` of type int. -/
def keyPort : ArgKey := ⟨"Port", "int"⟩

/-- Modelled from the spec: the key `ConfigFile` of type string. -/
def keyConfigFile : ArgKey := ⟨"ConfigFile", "string"⟩

/-- Modelled from the spec: the key `EnvVar` of type string. -/
def keyEnvVar : ArgKey := ⟨"EnvVar", "string"⟩

/-- Modelled from the spec: the Converter from `ConfigFile`, whose file is not
found. -/
def portFromConfigFile : Converter :=
  ⟨[keyConfigFile], [keyPort], true, fun _ => .error "file not found"⟩

/-- Modelled from the spec: the Converter from `EnvVar`, which succeeds. -/
def portFromEnvVar : Converter :=
  ⟨[keyEnvVar], [keyPort], true, fun env =>
    match env.get keyEnvVar with
    | some _ => .produced [(keyPort, .int 8080)]
    | none => .absent⟩

/-- Modelled from the spec: the candidate chains of the scenario, in the
registration order of the two Converters. -/
def portPlanner : Target → Environment → List Chain :=
  fun _ _ => [[portFromConfigFile], [portFromEnvVar]]

/-- Modelled from the spec: the Target of the scenario, requiring `Port`. -/
def portTarget : Target := ⟨[keyPort]⟩

/-- Modelled from the spec: a base Environment holding the two inputs. -/
def portBase : Environment :=
  [(keyConfigFile, .str "/etc/app.conf"), (keyEnvVar, .str "8080")]

/-! ## Resolution: Planner

The Resolution Planner of section 4.1 of the specification: a depth-first
search over the registered Converters with an explicit visiting set as cycle
guard (sections 3 and 9). -/

/-- Modelled from the spec: the keys that some registered Converter produces. -/
def producible (convs : List Converter) : List ArgKey :=
  convs.flatMap fun c => c.outputs

/-- Modelled from the spec: the AND side of the search of section 4.1.  A
Converter is usable only if all its inputs are satisfied: the chains for a list
of goals are the chains for each goal, one after the other, in every
combination. -/
def planAll (planOne : ArgKey → List Chain) : List ArgKey → List Chain
  | [] => [[]]
  | g :: gs => (planOne g).flatMap fun a => (planAll planOne gs).map fun b => a ++ b

/-- Modelled from the spec: the OR side of the search of section 4.1, for one
goal.  A goal held by the base Environment needs no Converter; a goal that is
currently being derived (it is in `visiting`) is rejected, which is the cycle
guard; otherwise every Converter whose outputs include the goal is a candidate
step, in registration order, placed after chains for all its inputs, found with
the goal added to the visiting set.  A goal with no candidate has no chain.
The first argument bounds the depth of the search. -/
def planGoal (convs : List Converter) (base : Environment) :
    Nat → List ArgKey → ArgKey → List Chain
  | 0, _, _ => []
  | depth + 1, visiting, goal =>
    if goal ∈ base.map Prod.fst then [[]]
    else if goal ∈ visiting then []
    else
      (convs.filter fun c => goal ∈ c.outputs).flatMap fun c =>
        (planAll (planGoal convs base depth (goal :: visiting)) c.inputs).map fun ch =>
          ch ++ [c]

/-- Modelled from the spec: a depth the search cannot exceed.  A goal enters
the visiting set only if some Converter produces it, and never twice. -/
def planDepth (convs : List Converter) : Nat :=
  (producible convs).length + 1

/-- Modelled from the spec: the Planner with a given depth bound. -/
def planWithDepth (convs : List Converter) (depth : Nat) (target : Target)
    (base : Environment) : List Chain :=
  planAll (planGoal convs base depth []) target.required

/-- Modelled from the spec: the Resolution Planner of section 4.1, the ordered
candidate chains for a Target from a base Environment and the registered
Converters. -/
def plan (convs : List Converter) (target : Target) (base : Environment) : List Chain :=
  planWithDepth convs (planDepth convs) target base

/-- Modelled from the spec: key `k` is derived from key `k2` by a registered
Converter that produces `k` and requires `k2`. -/
def dependsOn (convs : List Converter) (k k2 : ArgKey) : Prop :=
  ∃ c ∈ convs, k ∈ c.outputs ∧ k2 ∈ c.inputs

/-- Modelled from the spec: the registered Converters contain a cycle reachable
from the Target's required keys: from a required key, following dependencies,
one reaches a key that depends on itself through one or more Converters. -/
def hasReachableCycle (convs : List Converter) (target : Target) : Prop :=
  ∃ r ∈ target.required, ∃ k,
    Relation.ReflTransGen (dependsOn convs) r k ∧ Relation.TransGen (dependsOn convs) k k

/-- Modelled from the spec: a key can be derived from the base Environment by
the registered Converters (section 4.1): the base Environment holds it, or
some Converter produces it all of whose inputs can be derived.  A key that
could be derived only from itself, round a cycle, cannot be derived. -/
inductive Derivable (convs : List Converter) (base : Environment) : ArgKey → Prop where
  | held (g : ArgKey) : g ∈ base.map Prod.fst → Derivable convs base g
  | step (g : ArgKey) (c : Converter) : c ∈ convs → g ∈ c.outputs →
      (∀ k ∈ c.inputs, Derivable convs base k) → Derivable convs base g

/-- Modelled from the spec: a key can be derived without deriving any key of
`visiting` on the way (the keys the search of section 4.1 is currently
deriving). -/
inductive DerivableAvoiding (convs : List Converter) (base : Environment)
    (visiting : List ArgKey) : ArgKey → Prop where
  | held (g : ArgKey) : g ∈ base.map Prod.fst → DerivableAvoiding convs base visiting g
  | step (g : ArgKey) (c : Converter) : g ∉ visiting → c ∈ convs → g ∈ c.outputs →
      (∀ k ∈ c.inputs, DerivableAvoiding convs base visiting k) →
      DerivableAvoiding convs base visiting g

/-- Modelled from the spec: the Result reports Success: it has a value and the
last attempt of its trail succeeded. -/
def Result.reportsSuccess (r : Result) : Prop :=
  r.value ≠ none ∧ (r.attempts.getLast?.map fun a => a.outcome) = some .Success

/-- Modelled from the spec: the Result reports MissingInput: it has no value
and its trail is the planning-level MissingInput attempt alone, no Converter
having been invoked. -/
def Result.reportsMissingInput (r : Result) : Prop :=
  r.value = none ∧ r.attempts.map (fun a => a.outcome) = [.MissingInput] ∧
    ∀ a ∈ r.attempts, a.chain = []

/-- Modelled from the spec: the Result reports Exhausted: it has no value, every
candidate chain having failed. -/
def Result.reportsExhausted (r : Result) : Prop :=
  r.value = none ∧ ∀ a ∈ r.attempts, a.outcome ≠ .Success

/-! ### A cycle with a way around it

The keys `A` and `B` are derived from each other; `A` is also derived from `C`,
which the base Environment holds. -/

/-- Modelled from the spec: the key `A`. -/
def keyA : ArgKey := ⟨"A", "string"⟩

/-- Modelled from the spec: the key `B`. -/
def keyB : ArgKey := ⟨"B", "string"⟩

/-- Modelled from the spec: the key `C`. -/
def keyC : ArgKey := ⟨"C", "string"⟩

/-- Modelled from the spec: a Converter from `B` to `A`. -/
def convAfromB : Converter :=
  ⟨[keyB], [keyA], false, fun _ => .produced [(keyA, .str "a from b")]⟩

/-- Modelled from the spec: a Converter from `A` to `B`. -/
def convBfromA : Converter :=
  ⟨[keyA], [keyB], false, fun _ => .produced [(keyB, .str "b from a")]⟩

/-- Modelled from the spec: a Converter from `C` to `A`. -/
def convAfromC : Converter :=
  ⟨[keyC], [keyA], false, fun _ => .produced [(keyA, .str "a from c")]⟩

/-- Modelled from the spec: the cycle between `A` and `B` alone. -/
def cycleConvs : List Converter := [convAfromB, convBfromA]

/-- Modelled from the spec: the cycle between `A` and `B`, and the Converter
from `C` to `A`. -/
def cycleConvsWithExit : List Converter := [convAfromB, convBfromA, convAfromC]

/-- Modelled from the spec: the Target requiring `A`. -/
def targetA : Target := ⟨[keyA]⟩

/-- Modelled from the spec: a base Environment holding `C` only. -/
def baseC : Environment := [(keyC, .str "c")]

/-! ## Theorems about `NewConv` -/

/-- On a function type `NewConv` gets past the kind check and decides on the
parameter list and the number of results alone. -/
theorem NewConv_func (ins outs : List GoType) :
    NewConv (some (.func ins outs)) =
      if ins.length > 1 then
        .ret (none, some (Errorf "function must take one struct arg"))
      else
        ((GoType.func ins outs).In 0).bind fun typ =>
        if typ.Kind ≠ Kind.Struct then
          .ret (none, some (Errorf "function must take one struct arg"))
        else if outs.length = 0 ∨ outs.length > 2 then
          .ret (none, some (Errorf "function must return one or two results"))
        else
          .ret (none, none) := by
  simp [NewConv, ValueOf, Value.Type, GoResult.bind, GoType.Kind, GoType.NumIn,
    GoType.NumOut]

/-- On a function of one struct parameter only the number of results decides. -/
theorem NewConv_func_one_struct (fields : List (String × GoType)) (outs : List GoType) :
    NewConv (some (.func [.struct fields] outs)) =
      if outs.length = 0 ∨ outs.length > 2 then
        .ret (none, some (Errorf "function must return one or two results"))
      else
        .ret (none, none) := by
  rw [NewConv_func]
  simp only [GoType.In, GoResult.bind, GoType.Kind, List.get?, List.length_singleton]
  simp only [gt_iff_lt, lt_self_iff_false, ↓reduceIte, ne_eq, not_true_eq_false]

/-- The not-a-function message never coincides with the argument message. -/
theorem notFunc_msg_ne_arg_msg (k : Kind) :
    "fn should be a function, got " ++ KindString k ≠ "function must take one struct arg" := by
  cases k <;> decide

/-- The not-a-function message never coincides with the result-count message. -/
theorem notFunc_msg_ne_result_msg (k : Kind) :
    "fn should be a function, got " ++ KindString k ≠
      "function must return one or two results" := by
  cases k <;> decide

/-- C1 (code at the failing input): for `func(struct{}) struct{}`, a function
taking one struct and returning one struct, `NewConv` returns a nil `*Conv`
together with the nil error. -/
theorem C1_NewConv_struct_to_struct_returns_nil_conv :
    NewConv (some (.func [.struct []] [.struct []])) = .ret (none, none) := by
  simp [NewConv_func, GoType.In, GoResult.bind, GoType.Kind]

/-- C2: for every non-nil value whose kind is not Func, `NewConv` returns a nil
`*Conv` and the error "fn should be a function, got " followed by the name of
the value's kind. -/
theorem C2_NewConv_not_a_function (t : GoType) (h : t.Kind ≠ Kind.Func) :
    NewConv (some t) =
      .ret (none, some ⟨"fn should be a function, got " ++ KindString t.Kind⟩) := by
  simp [NewConv, ValueOf, Value.Type, GoResult.bind, h, Errorf]

/-- C2 at `int`, `string`, a struct and a pointer to a struct: the messages end
in "int", "string", "struct" and "ptr". -/
theorem C2_NewConv_not_a_function_witness :
    NewConv (some .int) = .ret (none, some ⟨"fn should be a function, got int"⟩) ∧
    NewConv (some .string) = .ret (none, some ⟨"fn should be a function, got string"⟩) ∧
    NewConv (some (.struct [])) = .ret (none, some ⟨"fn should be a function, got struct"⟩) ∧
    NewConv (some (.ptr (.struct []))) = .ret (none, some ⟨"fn should be a function, got ptr"⟩) :=
  ⟨C2_NewConv_not_a_function .int (by decide),
   C2_NewConv_not_a_function .string (by decide),
   C2_NewConv_not_a_function (.struct []) (by decide),
   C2_NewConv_not_a_function (.ptr (.struct [])) (by decide)⟩

/-- C3: for every function with exactly one parameter whose kind is not Struct,
whatever its results, `NewConv` returns a nil `*Conv` and a non-nil error (the
one with message "function must take one struct arg"). -/
theorem C3_NewConv_non_struct_param (p : GoType) (outs : List GoType)
    (h : p.Kind ≠ Kind.Struct) :
    NewConv (some (.func [p] outs)) =
      .ret (none, some ⟨"function must take one struct arg"⟩) := by
  simp [NewConv_func, GoType.In, GoResult.bind, h, Errorf]

/-- C3 at `func(*struct{}) struct{}`: a pointer to a struct is not a struct. -/
theorem C3_NewConv_non_struct_param_witness :
    (GoType.ptr (.struct [])).Kind ≠ Kind.Struct ∧
    NewConv (some (.func [.ptr (.struct [])] [.struct []])) =
      .ret (none, some ⟨"function must take one struct arg"⟩) :=
  ⟨by decide, C3_NewConv_non_struct_param (.ptr (.struct [])) [.struct []] (by decide)⟩

/-- C4: for every function with two or more parameters, whatever the parameter
types and the results, `NewConv` returns a nil `*Conv` and a non-nil error (the
one with message "function must take one struct arg"). -/
theorem C4_NewConv_too_many_params (ins outs : List GoType) (h : 2 ≤ ins.length) :
    NewConv (some (.func ins outs)) =
      .ret (none, some ⟨"function must take one struct arg"⟩) := by
  have h1 : ins.length > 1 := h
  simp [NewConv_func, h1, Errorf]

/-- C4 at `func(struct{}, int) struct{}`, whose first parameter is a struct. -/
theorem C4_NewConv_too_many_params_witness :
    2 ≤ [GoType.struct [], GoType.int].length ∧
    NewConv (some (.func [.struct [], .int] [.struct []])) =
      .ret (none, some ⟨"function must take one struct arg"⟩) :=
  ⟨by decide, C4_NewConv_too_many_params [.struct [], .int] [.struct []] (by decide)⟩

/-- C5: for every function with exactly one struct parameter and a number of
results that is zero or greater than two, `NewConv` returns a nil `*Conv` and
the error "function must return one or two results". -/
theorem C5_NewConv_wrong_result_count (fields : List (String × GoType))
    (outs : List GoType) (h : outs.length = 0 ∨ outs.length > 2) :
    NewConv (some (.func [.struct fields] outs)) =
      .ret (none, some ⟨"function must return one or two results"⟩) := by
  rw [NewConv_func_one_struct, if_pos h]
  rfl

/-- C5 at `func(struct{})` and at a function with three results. -/
theorem C5_NewConv_wrong_result_count_witness :
    NewConv (some (.func [.struct []] [])) =
      .ret (none, some ⟨"function must return one or two results"⟩) ∧
    NewConv (some (.func [.struct []] [.struct [], .int, .errorType])) =
      .ret (none, some ⟨"function must return one or two results"⟩) :=
  ⟨C5_NewConv_wrong_result_count [] [] (by decide),
   C5_NewConv_wrong_result_count [] [.struct [], .int, .errorType] (by decide)⟩

/-- C6 (code at the failing input): for `func(struct{}) int`, whose only result
is neither a struct nor a pointer to a struct, `NewConv` returns the nil error. -/
theorem C6_NewConv_accepts_non_struct_result :
    NewConv (some (.func [.struct []] [.int])) = .ret (none, none) := by
  simp [NewConv_func, GoType.In, GoResult.bind, GoType.Kind]

/-- C7 (code at the failing input): for `func() struct{}`, a function without
parameters, `NewConv` does not return: taking parameter 0 panics. -/
theorem C7_NewConv_zero_params_panics :
    NewConv (some (.func [] [.struct []])) =
      .panics "runtime error: index out of range [0] with length 0" := by
  rfl

/-- C8 (code at the failing input): for `func(struct{}) (struct{}, int)`, whose
second result is not of type `error`, `NewConv` returns the nil error. -/
theorem C8_NewConv_accepts_non_error_second_result :
    NewConv (some (.func [.struct []] [.struct [], .int])) = .ret (none, none) := by
  simp [NewConv_func, GoType.In, GoResult.bind, GoType.Kind]

/-- C9 (counterexample): the error `NewConv` returns for `func(struct{}, struct{})
struct{}`, which has too many arguments, is the same as the one it returns for
`func(int) struct{}`, whose single argument is not a struct. -/
theorem C9_too_many_args_error_eq_non_struct_error :
    ∃ e : GoError,
      NewConv (some (.func [.struct [], .struct []] [.struct []])) = .ret (none, some e) ∧
      NewConv (some (.func [.int] [.struct []])) = .ret (none, some e) :=
  ⟨⟨"function must take one struct arg"⟩,
   by simp [NewConv_func, Errorf],
   by simp [NewConv_func, GoType.In, GoResult.bind, GoType.Kind, Errorf]⟩

/-- C9 (amended): the four construction failures are reported with three
pairwise different errors.  For a value `t` that is not a function, a function
with two or more parameters, a function whose single parameter `p` is not a
struct, and a function of one struct with zero or more than two results,
`NewConv` returns errors `e1`, `e2`, `e3`, `e4` with `e2 = e3` (too many
arguments and a non-struct argument share one error) and `e1`, `e2`, `e4`
pairwise different. -/
theorem C9_NewConv_three_distinct_errors (t p : GoType) (ins outs2 outs3 outs4 : List GoType)
    (fields : List (String × GoType))
    (ht : t.Kind ≠ Kind.Func) (hins : 2 ≤ ins.length) (hp : p.Kind ≠ Kind.Struct)
    (houts : outs4.length = 0 ∨ outs4.length > 2) :
    ∃ e1 e2 e3 e4 : GoError,
      NewConv (some t) = .ret (none, some e1) ∧
      NewConv (some (.func ins outs2)) = .ret (none, some e2) ∧
      NewConv (some (.func [p] outs3)) = .ret (none, some e3) ∧
      NewConv (some (.func [.struct fields] outs4)) = .ret (none, some e4) ∧
      e2 = e3 ∧ e1 ≠ e2 ∧ e1 ≠ e4 ∧ e2 ≠ e4 := by
  have h1 : ins.length > 1 := hins
  refine ⟨⟨"fn should be a function, got " ++ KindString t.Kind⟩,
    ⟨"function must take one struct arg"⟩, ⟨"function must take one struct arg"⟩,
    ⟨"function must return one or two results"⟩, ?_, ?_, ?_, ?_, rfl, ?_, ?_, ?_⟩
  · simp [NewConv, ValueOf, Value.Type, GoResult.bind, ht, Errorf]
  · simp [NewConv_func, h1, Errorf]
  · simp [NewConv_func, GoType.In, GoResult.bind, hp, Errorf]
  · rw [NewConv_func_one_struct, if_pos houts]
    rfl
  · intro h
    exact notFunc_msg_ne_arg_msg t.Kind (congrArg GoError.msg h)
  · intro h
    exact notFunc_msg_ne_result_msg t.Kind (congrArg GoError.msg h)
  · decide

/-- C9 (amended) at the value `3`, `func(struct{}, struct{}) struct{}`,
`func(int) struct{}` and `func(struct{})`. -/
theorem C9_NewConv_three_distinct_errors_witness :
    ∃ e1 e2 e3 e4 : GoError,
      NewConv (some .int) = .ret (none, some e1) ∧
      NewConv (some (.func [.struct [], .struct []] [.struct []])) = .ret (none, some e2) ∧
      NewConv (some (.func [.int] [.struct []])) = .ret (none, some e3) ∧
      NewConv (some (.func [.struct []] [])) = .ret (none, some e4) ∧
      e2 = e3 ∧ e1 ≠ e2 ∧ e1 ≠ e4 ∧ e2 ≠ e4 :=
  C9_NewConv_three_distinct_errors .int .int [.struct [], .struct []] [.struct []]
    [.struct []] [] [] (by decide) (by decide) (by decide) (by decide)

/-- Whatever `NewConv` returns, the `*Conv` of the pair is nil. -/
theorem NewConv_conv_nil (f : Option GoType) (c : Option Conv) (e : Option GoError)
    (h : NewConv f = .ret (c, e)) : c = none := by
  cases f with
  | none => simp [NewConv, ValueOf, Value.Type, GoResult.bind] at h
  | some t =>
    by_cases hk : t.Kind = Kind.Func
    · cases t <;> simp [GoType.Kind] at hk
      rename_i ins outs
      rw [NewConv_func] at h
      split at h
      · cases h; rfl
      · cases hi : (GoType.func ins outs).In 0 with
        | panics m => rw [hi] at h; simp [GoResult.bind] at h
        | ret typ =>
          rw [hi] at h
          simp only [GoResult.bind] at h
          split at h
          · cases h; rfl
          · split at h <;> (cases h; rfl)
    · simp only [NewConv, ValueOf, Value.Type, GoResult.bind, ne_eq, hk, not_false_eq_true,
        ↓reduceIte] at h
      cases h; rfl

/-- C12: for every function with at least one parameter, `NewConv` returns a
nil error if and only if the function has exactly one parameter, of kind
Struct, and one or two results; and the types of the results play no part:
two result lists of the same length give the same outcome. -/
theorem C12_NewConv_nil_error_iff (ins outs : List GoType) (h : 1 ≤ ins.length) :
    ((∃ c, NewConv (some (.func ins outs)) = .ret (c, none)) ↔
      (∃ p, ins = [p] ∧ p.Kind = Kind.Struct) ∧ (outs.length = 1 ∨ outs.length = 2)) ∧
    (∀ outs2 : List GoType, outs2.length = outs.length →
      NewConv (some (.func ins outs2)) = NewConv (some (.func ins outs))) := by
  constructor
  · rw [NewConv_func]
    match ins, h with
    | [p], _ =>
      simp only [List.length_singleton, gt_iff_lt, lt_self_iff_false, ↓reduceIte, GoType.In,
        List.get?, GoResult.bind]
      by_cases hp : p.Kind = Kind.Struct
      · by_cases ho : outs.length = 0 ∨ outs.length > 2
        · simp only [hp, ne_eq, not_true_eq_false, ↓reduceIte, ho]
          constructor
          · rintro ⟨c, hc⟩
            cases hc
          · rintro ⟨_, h1 | h2⟩ <;> omega
        · simp only [hp, ne_eq, not_true_eq_false, ↓reduceIte, ho]
          constructor
          · intro _
            exact ⟨⟨p, rfl, hp⟩, by omega⟩
          · intro _
            exact ⟨none, rfl⟩
      · simp only [ne_eq, hp, not_false_eq_true, ↓reduceIte]
        constructor
        · rintro ⟨c, hc⟩
          cases hc
        · rintro ⟨⟨q, hq, hs⟩, _⟩
          cases hq
          exact absurd hs hp
    | p :: q :: rest, _ =>
      have hl : (p :: q :: rest).length > 1 := by simp
      simp only [hl, ↓reduceIte]
      constructor
      · rintro ⟨c, hc⟩
        cases hc
      · rintro ⟨⟨r, hr, _⟩, _⟩
        cases hr
  · intro outs2 hlen
    rw [NewConv_func, NewConv_func, hlen]
    cases ins <;> rfl

/-- C12 at `func(struct{}) (int, string)`: the error is nil although neither
result is a struct or an error, as it is for `func(struct{}) (struct{}, error)`. -/
theorem C12_NewConv_nil_error_iff_witness :
    ((∃ c, NewConv (some (.func [.struct []] [.int, .string])) = .ret (c, none)) ↔
      (∃ p, [GoType.struct []] = [p] ∧ p.Kind = Kind.Struct) ∧
        ([GoType.int, GoType.string].length = 1 ∨ [GoType.int, GoType.string].length = 2)) ∧
    (∀ outs2 : List GoType, outs2.length = [GoType.int, GoType.string].length →
      NewConv (some (.func [.struct []] outs2)) =
        NewConv (some (.func [.struct []] [.int, .string]))) :=
  C12_NewConv_nil_error_iff [.struct []] [.int, .string] (by decide)

/-- C13: the checks come in the order function kind, parameter count, parameter
kind, result count, and the first failing one gives the error.  For every
function with one non-struct parameter and zero or more than two results the
error is "function must take one struct arg", which is not the result-count
error; and so it is for every function with two or more parameters and such a
number of results.  The result-count error is what the same results give once
the parameter is a single struct. -/
theorem C13_NewConv_first_failing_check (p : GoType) (ins outs : List GoType)
    (hp : p.Kind ≠ Kind.Struct) (hins : 2 ≤ ins.length)
    (houts : outs.length = 0 ∨ outs.length > 2) :
    NewConv (some (.func [p] outs)) =
      .ret (none, some ⟨"function must take one struct arg"⟩) ∧
    NewConv (some (.func ins outs)) =
      .ret (none, some ⟨"function must take one struct arg"⟩) ∧
    (⟨"function must take one struct arg"⟩ : GoError) ≠
      ⟨"function must return one or two results"⟩ ∧
    (∀ fields : List (String × GoType), NewConv (some (.func [.struct fields] outs)) =
      .ret (none, some ⟨"function must return one or two results"⟩)) := by
  have h1 : ins.length > 1 := hins
  refine ⟨?_, ?_, by decide, ?_⟩
  · simp [NewConv_func, GoType.In, GoResult.bind, hp, Errorf]
  · simp [NewConv_func, h1, Errorf]
  · intro fields
    rw [NewConv_func_one_struct, if_pos houts]
    rfl

/-- C13 at `func(int)` and `func(int, int)`, both without results. -/
theorem C13_NewConv_first_failing_check_witness :
    (GoType.int.Kind ≠ Kind.Struct ∧ 2 ≤ [GoType.int, GoType.int].length ∧
      (([] : List GoType).length = 0 ∨ ([] : List GoType).length > 2)) ∧
    (NewConv (some (.func [.int] [])) =
        .ret (none, some ⟨"function must take one struct arg"⟩) ∧
      NewConv (some (.func [.int, .int] [])) =
        .ret (none, some ⟨"function must take one struct arg"⟩) ∧
      (⟨"function must take one struct arg"⟩ : GoError) ≠
        ⟨"function must return one or two results"⟩ ∧
      (∀ fields : List (String × GoType), NewConv (some (.func [.struct fields] [])) =
        .ret (none, some ⟨"function must return one or two results"⟩))) :=
  ⟨⟨by decide, by decide, by decide⟩,
   C13_NewConv_first_failing_check .int [.int, .int] [] (by decide) (by decide) (by decide)⟩

/-- C14 (code at the failing input): for the untyped nil interface value
`NewConv` does not return: `reflect.ValueOf(nil)` is the zero Value, and taking
its type panics before the kind is looked at. -/
theorem C14_NewConv_nil_panics :
    NewConv none = .panics "reflect: call of reflect.Value.Type on zero Value" := by
  rfl

/-- C15: on every input on which `NewConv` returns, a non-nil error comes with
a nil `*Conv`. -/
theorem C15_NewConv_error_implies_nil_conv (f : Option GoType) (c : Option Conv)
    (e : GoError) (h : NewConv f = .ret (c, some e)) : c = none :=
  NewConv_conv_nil f c (some e) h

/-- C15 at the value `3`, on which `NewConv` returns an error. -/
theorem C15_NewConv_error_implies_nil_conv_witness :
    NewConv (some .int) = .ret (none, some ⟨"fn should be a function, got int"⟩) ∧
    (none : Option Conv) = none :=
  ⟨rfl, C15_NewConv_error_implies_nil_conv (some .int) none
    ⟨"fn should be a function, got int"⟩ rfl⟩

/-! ## Theorems about resolution -/

/-- Running a chain whose front part succeeds continues with the rest of the
chain on the Environment the front part leaves. -/
theorem execChain_append (pre rest : Chain) (base env : Environment)
    (h : execChain pre base = .ok env) :
    execChain (pre ++ rest) base = execChain rest env := by
  induction pre generalizing base with
  | nil =>
    simp only [execChain, Except.ok.injEq] at h
    simp [h]
  | cons c cs ih =>
    simp only [List.cons_append, execChain] at h ⊢
    cases hc : c.invoke (Environment.restrict base c.inputs) with
    | produced out =>
      rw [hc] at h
      exact ih _ h
    | absent => rw [hc] at h; cases h
    | error err => rw [hc] at h; cases h

/-- The first entry of the trail is the first candidate with the outcome of its
run. -/
theorem attemptChains_head (target : Target) (base : Environment) (ch : Chain)
    (rest : List Chain) :
    (attemptChains target base (ch :: rest)).attempts.get? 0 =
      some ⟨ch, outcomeOf (execChain ch base)⟩ := by
  simp only [attemptChains]
  cases execChain ch base <;> simp [outcomeOf]

/-- Every entry of the trail is the candidate of the same position, with the
outcome of its run by the Executor. -/
theorem attemptChains_attempt (target : Target) (base : Environment) (cs : List Chain)
    (i : Nat) (a : Attempt)
    (h : (attemptChains target base cs).attempts.get? i = some a) :
    cs.get? i = some a.chain ∧ a.outcome = outcomeOf (execChain a.chain base) := by
  induction cs generalizing i with
  | nil => simp [attemptChains] at h
  | cons c rest ih =>
    cases i with
    | zero =>
      rw [attemptChains_head] at h
      cases h
      simp
    | succ j =>
      simp only [attemptChains] at h
      cases hc : execChain c base with
      | ok env => rw [hc] at h; simp at h
      | error o =>
        rw [hc] at h
        simp only [List.get?_cons_succ] at h
        simpa using ih j h

/-- After a failed attempt the trail goes on with the next candidate. -/
theorem attemptChains_next (target : Target) (base : Environment) (cs : List Chain)
    (i : Nat) (a : Attempt) (next : Chain)
    (h : (attemptChains target base cs).attempts.get? i = some a)
    (hfail : a.outcome ≠ .Success) (hnext : cs.get? (i + 1) = some next) :
    (attemptChains target base cs).attempts.get? (i + 1) =
      some ⟨next, outcomeOf (execChain next base)⟩ := by
  induction cs generalizing i with
  | nil => simp at hnext
  | cons c rest ih =>
    simp only [List.get?_cons_succ] at hnext
    have h0 := h
    simp only [attemptChains] at h ⊢
    cases hc : execChain c base with
    | ok env =>
      rw [hc] at h
      cases i with
      | zero =>
        simp only [List.get?_cons_zero, Option.some.injEq] at h
        subst h
        exact absurd rfl hfail
      | succ j => simp at h
    | error o =>
      rw [hc] at h
      simp only [List.get?_cons_succ]
      cases i with
      | zero =>
        cases rest with
        | nil => simp at hnext
        | cons r rs =>
          simp only [List.get?_cons_zero, Option.some.injEq] at hnext
          subst hnext
          exact attemptChains_head target base r rs
      | succ j =>
        simp only [List.get?_cons_succ] at h
        exact ih j h hnext

/-- The loop ends without a value only after every candidate was attempted. -/
theorem attemptChains_exhausted (target : Target) (base : Environment) (cs : List Chain)
    (h : (attemptChains target base cs).value = none) :
    (attemptChains target base cs).attempts.length = cs.length := by
  induction cs with
  | nil => simp [attemptChains]
  | cons c rest ih =>
    simp only [attemptChains] at h ⊢
    cases hc : execChain c base with
    | ok env => rw [hc] at h; simp at h
    | error o =>
      rw [hc] at h
      simpa using ih h

/-- C10: when the chain executed as attempt `i` of a resolution holds a
Converter `c` that, reached after the Converters `pre` before it succeeded,
returns an absent output (a nil pointer) or an error, that attempt is recorded
as ConversionFailed or ConversionError and resolution does not stop there: if
the Planner has a next candidate chain, it is run by the Executor and recorded
as attempt `i + 1` of the Result; and a Result without value (Exhausted) has
an attempt for every candidate chain. -/
theorem C10_Resolve_tries_next_chain (planner : Target → Environment → List Chain)
    (target : Target) (base env : Environment) (i : Nat) (pre post next : Chain)
    (c : Converter) (o : Outcome)
    (hatt : (Resolve planner target base).attempts.get? i = some ⟨pre ++ c :: post, o⟩)
    (hpre : execChain pre base = .ok env)
    (hc : c.invoke (env.restrict c.inputs) = .absent ∨
      ∃ err, c.invoke (env.restrict c.inputs) = .error err)
    (hnext : (planner target base).get? (i + 1) = some next) :
    (o = .ConversionFailed ∨ ∃ err, o = .ConversionError err) ∧
    (Resolve planner target base).attempts.get? (i + 1) =
      some ⟨next, outcomeOf (execChain next base)⟩ ∧
    ((Resolve planner target base).value = none →
      (Resolve planner target base).attempts.length = (planner target base).length) := by
  have hrun : execChain (pre ++ c :: post) base = .error .ConversionFailed ∨
      ∃ err, execChain (pre ++ c :: post) base = .error (.ConversionError err) := by
    rw [execChain_append pre (c :: post) base env hpre]
    simp only [execChain]
    rcases hc with hc | ⟨err, hc⟩
    · left; rw [hc]
    · right; exact ⟨err, by rw [hc]⟩
  cases hp : planner target base with
  | nil => rw [hp] at hnext; simp at hnext
  | cons ch rest =>
    rw [hp] at hnext
    simp only [Resolve, hp] at hatt ⊢
    have ho := (attemptChains_attempt target base _ i _ hatt).2
    simp only at ho
    have hfail : o = .ConversionFailed ∨ ∃ err, o = .ConversionError err := by
      rcases hrun with hr | ⟨err, hr⟩
      · left; rw [ho, hr]; rfl
      · right; exact ⟨err, by rw [ho, hr]; rfl⟩
    refine ⟨hfail, attemptChains_next target base _ i _ next hatt ?_ hnext,
      attemptChains_exhausted target base _⟩
    rcases hfail with hf | ⟨err, hf⟩ <;> simp [hf]

/-- C10 in the scenario of the two Converters producing `Port`: the first
attempt runs the Converter from `ConfigFile`, which returns an error; the
second candidate, the Converter from `EnvVar`, is then attempted, and succeeds
with the port as value. -/
theorem C10_Resolve_tries_next_chain_witness :
    ((Resolve portPlanner portTarget portBase).attempts.get? 0 =
        some ⟨[] ++ portFromConfigFile :: [], .ConversionError "file not found"⟩ ∧
      execChain [] portBase = .ok portBase ∧
      portFromConfigFile.invoke (portBase.restrict portFromConfigFile.inputs) =
        .error "file not found" ∧
      (portPlanner portTarget portBase).get? (0 + 1) = some [portFromEnvVar]) ∧
    ((Outcome.ConversionError "file not found" = .ConversionFailed ∨
        ∃ err, Outcome.ConversionError "file not found" = .ConversionError err) ∧
      (Resolve portPlanner portTarget portBase).attempts.get? (0 + 1) =
        some ⟨[portFromEnvVar], outcomeOf (execChain [portFromEnvVar] portBase)⟩ ∧
      ((Resolve portPlanner portTarget portBase).value = none →
        (Resolve portPlanner portTarget portBase).attempts.length =
          (portPlanner portTarget portBase).length)) ∧
    outcomeOf (execChain [portFromEnvVar] portBase) = .Success ∧
    (Resolve portPlanner portTarget portBase).value = some [(keyPort, .int 8080)] :=
  ⟨⟨rfl, rfl, rfl, rfl⟩,
   C10_Resolve_tries_next_chain portPlanner portTarget portBase portBase 0 [] []
     [portFromEnvVar] portFromConfigFile (.ConversionError "file not found")
     rfl rfl (Or.inr ⟨"file not found", rfl⟩) rfl,
   by decide, by decide⟩

/-! ## Theorems about the Planner -/

/-- A list of goals one of which has no chain has no chain. -/
theorem planAll_eq_nil (planOne : ArgKey → List Chain) (gs : List ArgKey) (g : ArgKey)
    (hg : g ∈ gs) (h : planOne g = []) : planAll planOne gs = [] := by
  induction gs with
  | nil => cases hg
  | cons x xs ih =>
    simp only [planAll]
    rcases List.mem_cons.mp hg with hx | hx
    · subst hx
      rw [h]
      rfl
    · rw [ih hx]
      simp

/-- The visiting set, holding distinct producible keys, is no longer than the
list of producible keys. -/
theorem visiting_length_le (convs : List Converter) (visiting : List ArgKey)
    (hnd : visiting.Nodup) (hsub : visiting ⊆ producible convs) :
    visiting.length ≤ (producible convs).length :=
  (hnd.subperm hsub).length_le

/-- The depth bound is never reached: with the visiting set made of distinct
producible keys, any two depths that leave room for the keys not yet visited
give the same chains. -/
theorem planGoal_depth_irrelevant (convs : List Converter) (base : Environment) (n : Nat) :
    ∀ (m : Nat) (visiting : List ArgKey) (goal : ArgKey), visiting.Nodup →
      visiting ⊆ producible convs →
      (producible convs).length < n + visiting.length →
      (producible convs).length < m + visiting.length →
      planGoal convs base n visiting goal = planGoal convs base m visiting goal := by
  induction n with
  | zero =>
    intro m visiting goal hnd hsub hn _
    have := visiting_length_le convs visiting hnd hsub
    omega
  | succ n ih =>
    intro m visiting goal hnd hsub hn hm
    cases m with
    | zero =>
      have := visiting_length_le convs visiting hnd hsub
      omega
    | succ m =>
      simp only [planGoal]
      by_cases hb : goal ∈ base.map Prod.fst
      · simp only [hb, ↓reduceIte]
      · by_cases hv : goal ∈ visiting
        · simp only [hb, hv, ↓reduceIte]
        · simp only [hb, hv, ↓reduceIte]
          by_cases hK : goal ∈ producible convs
          · have hfun : planGoal convs base n (goal :: visiting) =
                planGoal convs base m (goal :: visiting) := by
              funext g
              apply ih m (goal :: visiting) g (List.nodup_cons.mpr ⟨hv, hnd⟩)
              · intro k hk
                rcases List.mem_cons.mp hk with hk | hk
                · exact hk ▸ hK
                · exact hsub hk
              · simp only [List.length_cons]
                omega
              · simp only [List.length_cons]
                omega
            rw [hfun]
          · have hnone : convs.filter (fun c => goal ∈ c.outputs) = [] := by
              rw [List.filter_eq_nil_iff]
              intro c hc hg
              exact hK (List.mem_flatMap.mpr ⟨c, hc, of_decide_eq_true hg⟩)
            rw [hnone]
            rfl

/-- A deeper search finds the same candidate chains as the Planner. -/
theorem planWithDepth_eq_plan (convs : List Converter) (target : Target)
    (base : Environment) (extra : Nat) :
    planWithDepth convs (planDepth convs + extra) target base = plan convs target base := by
  have hfun : planGoal convs base (planDepth convs + extra) [] =
      planGoal convs base (planDepth convs) [] := by
    funext g
    apply planGoal_depth_irrelevant convs base _ _ [] g List.nodup_nil
    · intro k hk
      cases hk
    · simp only [planDepth, List.length_nil]
      omega
    · simp only [planDepth, List.length_nil]
      omega
  simp only [plan, planWithDepth, hfun]

/-- A set of keys that the base Environment does not hold and that can only be
derived from one another has no chain for any of its keys. -/
theorem planGoal_closed (convs : List Converter) (base : Environment) (S : List ArgKey)
    (hbase : ∀ k ∈ S, k ∉ base.map Prod.fst)
    (hclosed : ∀ c ∈ convs, (∃ k ∈ S, k ∈ c.outputs) → ∃ k ∈ S, k ∈ c.inputs)
    (depth : Nat) :
    ∀ (visiting : List ArgKey) (goal : ArgKey), goal ∈ S →
      planGoal convs base depth visiting goal = [] := by
  induction depth with
  | zero =>
    intro visiting goal _
    rfl
  | succ n ih =>
    intro visiting goal hg
    simp only [planGoal, hbase goal hg, ↓reduceIte]
    split
    · rfl
    · rw [List.flatMap_eq_nil_iff]
      intro c hc
      have hmem := List.mem_filter.mp hc
      obtain ⟨k, hkS, hkin⟩ := hclosed c hmem.1 ⟨goal, hg, of_decide_eq_true hmem.2⟩
      rw [planAll_eq_nil _ c.inputs k hkin (ih (goal :: visiting) k hkS)]
      rfl

/-- An attempt the Executor fails is never recorded as a Success. -/
theorem execChain_error_ne_success (ch : Chain) (env : Environment) (o : Outcome)
    (h : execChain ch env = .error o) : o ≠ .Success := by
  induction ch generalizing env with
  | nil => simp [execChain] at h
  | cons c rest ih =>
    simp only [execChain] at h
    cases hc : c.invoke (Environment.restrict env c.inputs) with
    | produced out =>
      rw [hc] at h
      exact ih _ h
    | absent =>
      rw [hc] at h
      cases h
      simp
    | error err =>
      rw [hc] at h
      cases h
      simp

/-- With no candidate chain `Resolve` reports MissingInput. -/
theorem Resolve_reportsMissingInput (planner : Target → Environment → List Chain)
    (target : Target) (base : Environment) (h : planner target base = []) :
    (Resolve planner target base).reportsMissingInput := by
  simp [Resolve, h, Result.reportsMissingInput]

/-- The keys `A` and `B` depend on each other through the two Converters of the
cycle. -/
theorem hasReachableCycle_of_mem (convs : List Converter) (h1 : convAfromB ∈ convs)
    (h2 : convBfromA ∈ convs) :
    hasReachableCycle convs targetA := by
  refine ⟨keyA, by simp [targetA], keyA, Relation.ReflTransGen.refl, ?_⟩
  have hab : dependsOn convs keyA keyB := ⟨convAfromB, h1, by simp [convAfromB], by simp [convAfromB]⟩
  have hba : dependsOn convs keyB keyA := ⟨convBfromA, h2, by simp [convBfromA], by simp [convBfromA]⟩
  exact Relation.TransGen.head hab (Relation.TransGen.single hba)

/-- C11 (counterexample): the Converters `B → A`, `A → B`, `C → A` contain a
cycle reachable from the required key `A`, and with `C` in the base
Environment `Resolve` reports neither MissingInput nor Exhausted: the only
candidate chain is the Converter from `C`, it is attempted and succeeds. -/
theorem C11_Resolve_cycle_with_exit_succeeds :
    hasReachableCycle cycleConvsWithExit targetA ∧
    ((Resolve (plan cycleConvsWithExit) targetA baseC).value =
        some [(keyA, .str "a from c")] ∧
      (Resolve (plan cycleConvsWithExit) targetA baseC).attempts.map (fun a => a.outcome) =
        [.Success]) ∧
    ¬ ((Resolve (plan cycleConvsWithExit) targetA baseC).reportsMissingInput ∨
      (Resolve (plan cycleConvsWithExit) targetA baseC).reportsExhausted) := by
  refine ⟨hasReachableCycle_of_mem _ (by simp [cycleConvsWithExit]) (by simp [cycleConvsWithExit]),
    ⟨by decide, by decide⟩, ?_⟩
  have hv : (Resolve (plan cycleConvsWithExit) targetA baseC).value ≠ none := by decide
  rintro (h | h)
  · exact hv h.1
  · exact hv h.1

/-- A list of goals has a chain exactly when each of its goals has one. -/
theorem planAll_ne_nil_iff (planOne : ArgKey → List Chain) (gs : List ArgKey) :
    planAll planOne gs ≠ [] ↔ ∀ g ∈ gs, planOne g ≠ [] := by
  induction gs with
  | nil => simp [planAll]
  | cons x xs ih =>
    constructor
    · intro h g hg
      rcases List.mem_cons.mp hg with hx | hx
      · subst hx
        intro hnil
        apply h
        simp only [planAll, hnil]
        rfl
      · exact ih.mp (fun hnil => h (by simp [planAll, hnil])) g hx
    · intro h
      have hx : planOne x ≠ [] := h x (List.mem_cons_self x xs)
      have hxs : planAll planOne xs ≠ [] := ih.mpr fun g hg => h g (List.mem_cons_of_mem x hg)
      obtain ⟨a, as, ha⟩ := List.exists_cons_of_ne_nil hx
      obtain ⟨b, bs, hb⟩ := List.exists_cons_of_ne_nil hxs
      simp [planAll, ha, hb]

/-- The search finds chains only for keys that can be derived. -/
theorem planGoal_sound (convs : List Converter) (base : Environment) (depth : Nat) :
    ∀ (visiting : List ArgKey) (goal : ArgKey),
      planGoal convs base depth visiting goal ≠ [] → Derivable convs base goal := by
  induction depth with
  | zero =>
    intro visiting goal h
    exact absurd rfl h
  | succ n ih =>
    intro visiting goal h
    simp only [planGoal] at h
    by_cases hb : goal ∈ base.map Prod.fst
    · exact Derivable.held goal hb
    · by_cases hv : goal ∈ visiting
      · simp [hb, hv] at h
      · simp only [hb, hv, ↓reduceIte, ne_eq, List.flatMap_eq_nil_iff, not_forall] at h
        obtain ⟨c, hc, hne⟩ := h
        have hmem := List.mem_filter.mp hc
        have hall : planAll (planGoal convs base n (goal :: visiting)) c.inputs ≠ [] := by
          intro hnil
          apply hne
          rw [hnil]
          rfl
        exact Derivable.step goal c hmem.1 (of_decide_eq_true hmem.2) fun k hk =>
          ih (goal :: visiting) k ((planAll_ne_nil_iff _ _).mp hall k hk)

/-- A key that can be derived can be derived avoiding no key. -/
theorem derivableAvoiding_nil (convs : List Converter) (base : Environment) (g : ArgKey)
    (h : Derivable convs base g) : DerivableAvoiding convs base [] g := by
  induction h with
  | held g hg => exact DerivableAvoiding.held g hg
  | step g c hc hg _ ih =>
    exact DerivableAvoiding.step g c (List.not_mem_nil g) hc hg ih

/-- A derivation of any key either does without deriving `g`, or holds a step
that derives `g` from inputs derived without deriving `g` again. -/
theorem derivableAvoiding_cons_or (convs : List Converter) (base : Environment)
    (visiting : List ArgKey) (g x : ArgKey)
    (h : DerivableAvoiding convs base visiting x) :
    DerivableAvoiding convs base (g :: visiting) x ∨
      (g ∉ visiting ∧ ∃ c ∈ convs, g ∈ c.outputs ∧
        ∀ k ∈ c.inputs, DerivableAvoiding convs base (g :: visiting) k) := by
  induction h with
  | held x hx => exact Or.inl (DerivableAvoiding.held x hx)
  | step x c hxv hc hx _ ih =>
    by_cases hQ : g ∉ visiting ∧ ∃ c ∈ convs, g ∈ c.outputs ∧
        ∀ k ∈ c.inputs, DerivableAvoiding convs base (g :: visiting) k
    · exact Or.inr hQ
    · have hkids : ∀ k ∈ c.inputs, DerivableAvoiding convs base (g :: visiting) k := by
        intro k hk
        rcases ih k hk with hk2 | hk2
        · exact hk2
        · exact absurd hk2 hQ
      by_cases hxg : x = g
      · subst hxg
        exact Or.inr ⟨hxv, c, hc, hx, hkids⟩
      · left
        refine DerivableAvoiding.step x c ?_ hc hx hkids
        intro hmem
        rcases List.mem_cons.mp hmem with h1 | h1
        · exact hxg h1
        · exact hxv h1

/-- A key the base Environment does not hold and that can be derived has a step
deriving it from inputs that are derived without deriving it again. -/
theorem derivableAvoiding_step (convs : List Converter) (base : Environment)
    (visiting : List ArgKey) (g : ArgKey) (hb : g ∉ base.map Prod.fst)
    (h : DerivableAvoiding convs base visiting g) :
    g ∉ visiting ∧ ∃ c ∈ convs, g ∈ c.outputs ∧
      ∀ k ∈ c.inputs, DerivableAvoiding convs base (g :: visiting) k := by
  rcases derivableAvoiding_cons_or convs base visiting g g h with h1 | h1
  · cases h1 with
    | held _ hg => exact absurd hg hb
    | step _ c hv _ _ _ => exact absurd (List.mem_cons_self g visiting) hv
  · exact h1

/-- The search finds a chain for every key that can be derived avoiding the
keys being derived, as long as the depth leaves room for the keys not yet
visited. -/
theorem planGoal_complete (convs : List Converter) (base : Environment) (depth : Nat) :
    ∀ (visiting : List ArgKey) (goal : ArgKey), visiting.Nodup →
      visiting ⊆ producible convs →
      (producible convs).length < depth + visiting.length →
      DerivableAvoiding convs base visiting goal →
      planGoal convs base depth visiting goal ≠ [] := by
  induction depth with
  | zero =>
    intro visiting goal hnd hsub hn _
    have := visiting_length_le convs visiting hnd hsub
    omega
  | succ n ih =>
    intro visiting goal hnd hsub hn hd
    simp only [planGoal]
    by_cases hb : goal ∈ base.map Prod.fst
    · simp [hb]
    · obtain ⟨hv, c, hc, hg, hkids⟩ := derivableAvoiding_step convs base visiting goal hb hd
      simp only [hb, hv, ↓reduceIte, ne_eq, List.flatMap_eq_nil_iff, not_forall]
      refine ⟨c, List.mem_filter.mpr ⟨hc, decide_eq_true hg⟩, ?_⟩
      have hK : goal ∈ producible convs := List.mem_flatMap.mpr ⟨c, hc, hg⟩
      have hall : planAll (planGoal convs base n (goal :: visiting)) c.inputs ≠ [] := by
        rw [planAll_ne_nil_iff]
        intro k hk
        apply ih (goal :: visiting) k (List.nodup_cons.mpr ⟨hv, hnd⟩)
        · intro x hx
          rcases List.mem_cons.mp hx with hx | hx
          · exact hx ▸ hK
          · exact hsub hx
        · simp only [List.length_cons]
          omega
        · exact hkids k hk
      simpa using hall

/-- The Planner has a candidate chain exactly when every required key can be
derived from the base Environment by the registered Converters. -/
theorem plan_ne_nil_iff (convs : List Converter) (target : Target) (base : Environment) :
    plan convs target base ≠ [] ↔ ∀ r ∈ target.required, Derivable convs base r := by
  simp only [plan, planWithDepth, planAll_ne_nil_iff]
  constructor
  · intro h r hr
    exact planGoal_sound convs base _ [] r (h r hr)
  · intro h r hr
    apply planGoal_complete convs base _ [] r List.nodup_nil
    · intro k hk
      cases hk
    · simp only [planDepth, List.length_nil]
      omega
    · exact derivableAvoiding_nil convs base r (h r hr)

/-- The Executor never fails a chain with MissingInput. -/
theorem execChain_error_ne_missingInput (ch : Chain) (env : Environment) (o : Outcome)
    (h : execChain ch env = .error o) : o ≠ .MissingInput := by
  induction ch generalizing env with
  | nil => simp [execChain] at h
  | cons c rest ih =>
    simp only [execChain] at h
    cases hc : c.invoke (Environment.restrict env c.inputs) with
    | produced out =>
      rw [hc] at h
      exact ih _ h
    | absent =>
      rw [hc] at h
      cases h
      simp
    | error err =>
      rw [hc] at h
      cases h
      simp

/-- When every candidate fails in the Executor the loop ends without a value,
the trail holding every candidate with the outcome of its run. -/
theorem attemptChains_all_fail (target : Target) (base : Environment) (cs : List Chain)
    (h : ∀ ch ∈ cs, ∀ env, execChain ch base ≠ .ok env) :
    attemptChains target base cs =
      ⟨none, cs.map fun ch => ⟨ch, outcomeOf (execChain ch base)⟩⟩ := by
  induction cs with
  | nil => rfl
  | cons c rest ih =>
    simp only [attemptChains]
    cases hc : execChain c base with
    | ok env => exact absurd hc (h c (List.mem_cons_self c rest) env)
    | error o =>
      rw [ih fun ch hch => h ch (List.mem_cons_of_mem c hch)]
      simp only [List.map_cons, hc, outcomeOf]

/-- When a candidate succeeds after the candidates before it failed, the loop
stops there: the value is the requested subset of the Environment that chain
leaves, and the trail holds the failed candidates and the Success. -/
theorem attemptChains_first_success (target : Target) (base : Environment)
    (pre post : List Chain) (ch : Chain) (env : Environment)
    (hpre : ∀ c ∈ pre, ∀ e, execChain c base ≠ .ok e) (hch : execChain ch base = .ok env) :
    attemptChains target base (pre ++ ch :: post) =
      ⟨some (env.restrict target.required),
        (pre.map fun c => ⟨c, outcomeOf (execChain c base)⟩) ++ [⟨ch, .Success⟩]⟩ := by
  induction pre with
  | nil => simp [attemptChains, hch]
  | cons c rest ih =>
    rw [List.cons_append]
    simp only [attemptChains]
    cases hc : execChain c base with
    | ok e => exact absurd hc (hpre c (List.mem_cons_self c rest) e)
    | error o =>
      rw [ih fun x hx => hpre x (List.mem_cons_of_mem c hx)]
      simp only [List.map_cons, List.cons_append, hc, outcomeOf]

/-- Among candidates one of which succeeds there is a first that does. -/
theorem exists_first_success (base : Environment) (cs : List Chain)
    (h : ∃ ch ∈ cs, ∃ env, execChain ch base = .ok env) :
    ∃ (pre : List Chain) (ch : Chain) (post : List Chain) (env : Environment),
      cs = pre ++ ch :: post ∧ (∀ c ∈ pre, ∀ e, execChain c base ≠ .ok e) ∧
        execChain ch base = .ok env := by
  induction cs with
  | nil =>
    obtain ⟨ch, hch, _⟩ := h
    cases hch
  | cons c rest ih =>
    cases hc : execChain c base with
    | ok env =>
      exact ⟨[], c, rest, env, rfl, fun x hx _ => absurd hx (List.not_mem_nil x), hc⟩
    | error o =>
      obtain ⟨ch, hch, env, hok⟩ := h
      rcases List.mem_cons.mp hch with hx | hx
      · subst hx
        rw [hc] at hok
        cases hok
      · obtain ⟨pre, ch2, post, env2, hcs, hpre, hok2⟩ := ih ⟨ch, hx, env, hok⟩
        refine ⟨c :: pre, ch2, post, env2, by rw [hcs]; rfl, ?_, hok2⟩
        intro x hx2 e
        rcases List.mem_cons.mp hx2 with h1 | h1
        · subst h1
          rw [hc]
          exact fun hcontra => by cases hcontra
        · exact hpre x h1 e

/-- The loop reports Success exactly when some candidate runs to success. -/
theorem attemptChains_success_iff (target : Target) (base : Environment) (cs : List Chain) :
    (attemptChains target base cs).reportsSuccess ↔
      ∃ ch ∈ cs, ∃ env, execChain ch base = .ok env := by
  constructor
  · intro h
    by_contra hno
    have hall : ∀ ch ∈ cs, ∀ env, execChain ch base ≠ .ok env := by
      intro ch hch env hok
      exact hno ⟨ch, hch, env, hok⟩
    rw [attemptChains_all_fail target base cs hall] at h
    exact h.1 rfl
  · intro h
    obtain ⟨pre, ch, post, env, hcs, hpre, hok⟩ := exists_first_success base cs h
    rw [hcs, attemptChains_first_success target base pre post ch env hpre hok]
    simp [Result.reportsSuccess]

/-- With the Planner of section 4.1, `Resolve` reports MissingInput exactly when
the Planner has no candidate chain. -/
theorem Resolve_reportsMissingInput_iff (planner : Target → Environment → List Chain)
    (target : Target) (base : Environment) :
    (Resolve planner target base).reportsMissingInput ↔ planner target base = [] := by
  constructor
  · intro h
    cases hp : planner target base with
    | nil => rfl
    | cons ch rest =>
      exfalso
      simp only [Resolve, hp] at h
      have hhead := attemptChains_head target base ch rest
      obtain ⟨_, hout, _⟩ := h
      cases hatt : (attemptChains target base (ch :: rest)).attempts with
      | nil => rw [hatt] at hout; simp at hout
      | cons a l =>
        rw [hatt] at hout hhead
        simp only [List.get?_cons_zero, Option.some.injEq] at hhead
        simp only [List.map_cons, List.cons.injEq] at hout
        rw [hhead] at hout
        have hne : outcomeOf (execChain ch base) ≠ .MissingInput := by
          cases hc : execChain ch base with
          | ok env => simp [outcomeOf]
          | error o => exact execChain_error_ne_missingInput ch base o hc
        exact hne hout.1
  · exact Resolve_reportsMissingInput planner target base

/-- The cycle guard: a key that is being derived and that the base Environment
does not hold is rejected as a goal. -/
theorem planGoal_visiting (convs : List Converter) (base : Environment) (depth : Nat)
    (visiting : List ArgKey) (k : ArgKey) (hv : k ∈ visiting)
    (hb : k ∉ base.map Prod.fst) : planGoal convs base depth visiting k = [] := by
  cases depth with
  | zero => rfl
  | succ n => simp only [planGoal, hb, hv, ↓reduceIte]

/-- C11 (amended): for every registered set of Converters containing a cycle
reachable from the Target's required keys, `Resolve` terminates, and it reports
MissingInput or Exhausted exactly when no candidate chain runs to success in
the Executor.  In full:
the search of the Planner never reaches its depth bound, a deeper search giving
the same candidate chains;
on a key of the cycle the cycle guard rejects the goal while that key is being
derived;
`Resolve` reports MissingInput exactly when some required key cannot be derived
from the base Environment by the registered Converters;
it reports Success exactly when some candidate chain runs to success, and then
the value is the requested subset of the Environment left by the first
candidate that does, the trail holding the failed candidates before it;
it reports MissingInput or Exhausted exactly when no candidate chain runs to
success;
and it reports MissingInput when a required key lies in a set `S` of keys that
the base Environment does not hold and that can be derived only from one
another (every Converter producing a key of `S` requires a key of `S`), as the
keys of a cycle without another way in are. -/
theorem C11_Resolve_terminates_and_reports (convs : List Converter) (target : Target)
    (base : Environment) (hcycle : hasReachableCycle convs target) :
    (∀ extra : Nat,
      planWithDepth convs (planDepth convs + extra) target base = plan convs target base) ∧
    (∃ r ∈ target.required, ∃ k,
      Relation.ReflTransGen (dependsOn convs) r k ∧ Relation.TransGen (dependsOn convs) k k ∧
      ∀ (depth : Nat) (visiting : List ArgKey), k ∈ visiting → k ∉ base.map Prod.fst →
        planGoal convs base depth visiting k = []) ∧
    ((Resolve (plan convs) target base).reportsMissingInput ↔
      ∃ r ∈ target.required, ¬ Derivable convs base r) ∧
    ((Resolve (plan convs) target base).reportsSuccess ↔
      ∃ ch ∈ plan convs target base, ∃ env, execChain ch base = .ok env) ∧
    (∀ (pre post : List Chain) (ch : Chain) (env : Environment),
      plan convs target base = pre ++ ch :: post →
      (∀ c ∈ pre, ∀ e, execChain c base ≠ .ok e) → execChain ch base = .ok env →
      Resolve (plan convs) target base =
        ⟨some (env.restrict target.required),
          (pre.map fun c => ⟨c, outcomeOf (execChain c base)⟩) ++ [⟨ch, .Success⟩]⟩) ∧
    (((Resolve (plan convs) target base).reportsMissingInput ∨
        (Resolve (plan convs) target base).reportsExhausted) ↔
      ∀ ch ∈ plan convs target base, ∀ env, execChain ch base ≠ .ok env) ∧
    (∀ S : List ArgKey, (∃ r ∈ target.required, r ∈ S) →
      (∀ k ∈ S, k ∉ base.map Prod.fst) →
      (∀ c ∈ convs, (∃ k ∈ S, k ∈ c.outputs) → ∃ k ∈ S, k ∈ c.inputs) →
      (Resolve (plan convs) target base).reportsMissingInput) := by
  have hsucc : (Resolve (plan convs) target base).reportsSuccess ↔
      ∃ ch ∈ plan convs target base, ∃ env, execChain ch base = .ok env := by
    cases hp : plan convs target base with
    | nil => simp [Resolve, hp, Result.reportsSuccess]
    | cons ch rest =>
      simp only [Resolve, hp]
      exact attemptChains_success_iff target base (ch :: rest)
  refine ⟨planWithDepth_eq_plan convs target base, ?_, ?_, hsucc, ?_, ?_, ?_⟩
  · obtain ⟨r, hr, k, hrk, hkk⟩ := hcycle
    exact ⟨r, hr, k, hrk, hkk, fun depth visiting hv hb =>
      planGoal_visiting convs base depth visiting k hv hb⟩
  · rw [Resolve_reportsMissingInput_iff]
    constructor
    · intro hnil
      by_contra hno
      apply (plan_ne_nil_iff convs target base).mpr _ hnil
      intro r hr
      by_contra hd
      exact hno ⟨r, hr, hd⟩
    · rintro ⟨r, hr, hd⟩
      by_contra hne
      exact hd ((plan_ne_nil_iff convs target base).mp hne r hr)
  · intro pre post ch env hp hpre hok
    cases pre with
    | nil =>
      simp only [Resolve, hp, List.nil_append]
      exact attemptChains_first_success target base [] post ch env hpre hok
    | cons c cs =>
      simp only [Resolve, hp, List.cons_append]
      exact attemptChains_first_success target base (c :: cs) post ch env hpre hok
  · constructor
    · intro h ch hch env hok
      have hs := hsucc.mpr ⟨ch, hch, env, hok⟩
      rcases h with h | h
      · exact hs.1 h.1
      · exact hs.1 h.1
    · intro hall
      cases hp : plan convs target base with
      | nil => exact Or.inl (Resolve_reportsMissingInput _ target base hp)
      | cons ch rest =>
        right
        rw [hp] at hall
        simp only [Resolve, hp]
        rw [attemptChains_all_fail target base (ch :: rest) hall]
        refine ⟨rfl, ?_⟩
        intro a ha
        obtain ⟨c, hc, rfl⟩ := List.mem_map.mp ha
        cases hrun : execChain c base with
        | ok env => exact absurd hrun (hall c hc env)
        | error o =>
          simp only [outcomeOf]
          exact execChain_error_ne_success c base o hrun
  · rintro S ⟨r, hr, hrS⟩ hbase hclosed
    apply Resolve_reportsMissingInput
    exact planAll_eq_nil _ target.required r hr
      (planGoal_closed convs base S hbase hclosed _ [] r hrS)

/-- C11 (amended) at two sets of Converters with the cycle `B → A`, `A → B`, the
key `A` being required and the base Environment holding `C` alone.  With the
cycle only, `A` cannot be derived and `Resolve` reports MissingInput; with the
Converter `C → A` besides, the one candidate chain runs to success and
`Resolve` reports Success with the value it leaves. -/
theorem C11_Resolve_terminates_and_reports_witness :
    (hasReachableCycle cycleConvs targetA ∧
      planWithDepth cycleConvs (planDepth cycleConvs + 5) targetA baseC =
        plan cycleConvs targetA baseC ∧
      (Resolve (plan cycleConvs) targetA baseC).reportsMissingInput ∧
      (∃ r ∈ targetA.required, ¬ Derivable cycleConvs baseC r) ∧
      ((Resolve (plan cycleConvs) targetA baseC).reportsMissingInput ∨
        (Resolve (plan cycleConvs) targetA baseC).reportsExhausted)) ∧
    (hasReachableCycle cycleConvsWithExit targetA ∧
      plan cycleConvsWithExit targetA baseC = [] ++ [convAfromC] :: [] ∧
      execChain [convAfromC] baseC = .ok [(keyA, .str "a from c"), (keyC, .str "c")] ∧
      (Resolve (plan cycleConvsWithExit) targetA baseC).reportsSuccess ∧
      Resolve (plan cycleConvsWithExit) targetA baseC =
        ⟨some [(keyA, .str "a from c")], [⟨[convAfromC], .Success⟩]⟩) :=
  have h1 := C11_Resolve_terminates_and_reports cycleConvs targetA baseC
    (hasReachableCycle_of_mem _ (by simp [cycleConvs]) (by simp [cycleConvs]))
  have h2 := C11_Resolve_terminates_and_reports cycleConvsWithExit targetA baseC
    (hasReachableCycle_of_mem _ (by simp [cycleConvsWithExit]) (by simp [cycleConvsWithExit]))
  have hmissing := h1.2.2.2.2.2.2 [keyA, keyB] ⟨keyA, by simp [targetA], by simp⟩
    (by decide) (by decide)
  ⟨⟨hasReachableCycle_of_mem _ (by simp [cycleConvs]) (by simp [cycleConvs]),
    h1.1 5,
    hmissing,
    h1.2.2.1.mp hmissing,
    h1.2.2.2.2.2.1.mpr (fun ch hch => absurd hch (List.not_mem_nil ch))⟩,
   ⟨hasReachableCycle_of_mem _ (by simp [cycleConvsWithExit]) (by simp [cycleConvsWithExit]),
    rfl,
    rfl,
    h2.2.2.2.1.mpr ⟨[convAfromC], List.mem_singleton.mpr rfl, _, rfl⟩,
    h2.2.2.2.2.1 [] [] [convAfromC] _ rfl (fun c hc => absurd hc (List.not_mem_nil c)) rfl⟩⟩

end Argmapper
